import Mathlib

/-!
# Verification of the Banking Applications ledger core (src/app.js)

Shallow embedding of the in-memory bank ledger: accounts with observer
notification, interest strategies, reversible commands (deposit, withdraw,
transfer) and the transaction manager with its undo history, plus the
App-level operations (customer/account creation, id-resolved operations).

Money amounts are JavaScript numbers; they are modelled as rationals (ℚ).
JavaScript object references are modelled by account ids (unique in every
reachable state, proved below) and customer indices (App stores customers
in an array and resolves owners by index).  Notifications are modelled as a
list of structured events emitted by each operation, in emission order:
`balanceMsg` is a delivery of a balance-change message to one observer
(Account.notify → Customer.update), `notice` is a direct operational
UI.notify call.
-/

/-- The reason string passed to `updateBalance` in app.js, as a closed type
(the JS strings carry the same data: a tag plus at most one account id). -/
inductive Reason where
  | deposit
  | undoDeposit
  | withdraw
  | undoWithdraw
  | transferOut (toId : Nat)
  | transferIn (fromId : Nat)
  | undoTransferFrom (fromId : Nat)
  | undoTransferTo (toId : Nat)
deriving DecidableEq, Repr

/-- Operational notices sent directly through UI.notify in app.js. -/
inductive Notice where
  | withdrawFailed (acctId : Nat)
  | transferFailed (acctId : Nat)
  | nothingToUndo
  | addedCustomer (name : String)
  | selectOwner
  | createdAccount (acctId : Nat)
  | selectValidAccount
  | selectValidAccounts
  | cannotTransferSame
  | selectAccountStrategy
  | appliedStrategy (acctId : Nat)
  | selectAccountInterest
deriving DecidableEq, Repr

/-- An observable event of the core: either a balance-change message
delivered to one observer (`Account.notify` iterating `o.update`), or an
operational notice (`UI.notify` called directly). -/
inductive Event where
  | balanceMsg (observer : Nat) (acctId : Nat) (reason : Reason)
      (delta : ℚ) (newBalance : ℚ)
  | notice (n : Notice)
deriving DecidableEq, Repr

/-- The observer an event is delivered to, if it is an observer message. -/
def Event.obsOf : Event → Option Nat
  | .balanceMsg o _ _ _ _ => some o
  | .notice _ => none

/-- The account named in a balance-change message, if any. -/
def Event.acctOf : Event → Option Nat
  | .balanceMsg _ a _ _ _ => some a
  | .notice _ => none

/-- The signed delta carried by a balance-change message, if any. -/
def Event.deltaOf : Event → Option ℚ
  | .balanceMsg _ _ _ d _ => some d
  | .notice _ => none

/-- Whether an event is an operational notice. -/
def Event.isNotice : Event → Bool
  | .balanceMsg _ _ _ _ _ => false
  | .notice _ => true

/-- Interest strategies (Strategy pattern): SavingsInterest,
FixedDepositInterest, CurrentInterest in app.js. -/
inductive InterestStrategy where
  | savings
  | fixedDeposit
  | current
deriving DecidableEq, Repr

/-- Embeds `calculate(balance)` of each concrete strategy class. -/
def InterestStrategy.calculate : InterestStrategy → ℚ → ℚ
  | .savings, balance => balance * (3 / 100)
  | .fixedDeposit, balance => balance * (7 / 100)
  | .current, _ => 0

/-- An Account object: id, owner (customer index), balance, observer list
(customer indices, in attachment order), active interest strategy, type
name. -/
structure Account where
  id : Nat
  owner : Nat
  balance : ℚ
  observers : List Nat
  strategy : InterestStrategy
  typeName : String
deriving DecidableEq, Repr

/-- Embeds `Account.getBalance`. -/
def Account.getBalance (a : Account) : ℚ := a.balance

/-- Embeds `Account.attach`: adds the observer only if not already present. -/
def Account.attach (a : Account) (obs : Nat) : Account :=
  if obs ∈ a.observers then a
  else { a with observers := a.observers ++ [obs] }

/-- Embeds `Account.detach`: filters the observer out. -/
def Account.detach (a : Account) (obs : Nat) : Account :=
  { a with observers := a.observers.filter (fun o => o ≠ obs) }

/-- Embeds `Account.notify`: one message per attached observer, in list order. -/
def Account.notifyEvents (a : Account) (reason : Reason)
    (delta newBalance : ℚ) : List Event :=
  a.observers.map (fun o => Event.balanceMsg o a.id reason delta newBalance)

/-- Embeds `Account.updateBalance(delta, reason)`: adds the signed delta, then
notifies every observer with the delta and the new balance. -/
def Account.updateBalance (a : Account) (delta : ℚ) (reason : Reason) :
    Account × List Event :=
  let a' := { a with balance := a.balance + delta }
  (a', a'.notifyEvents reason delta a'.balance)

/-- Embeds `Account.setInterestStrategy`. -/
def Account.setInterestStrategy (a : Account) (s : InterestStrategy) :
    Account :=
  { a with strategy := s }

/-- Embeds `Account.calculateInterest`: delegates to the active strategy with the
current balance; pure, no mutation. -/
def Account.calculateInterest (a : Account) : ℚ :=
  a.strategy.calculate a.balance

/-- Calling `updateBalance` through an account reference: the ledger is the
list of live accounts, and the JS object reference is resolved to the first
account with the given id (ids are unique in reachable states). Returns
the updated ledger and the emitted events. -/
def updateBalanceAt : List Account → Nat → ℚ → Reason →
    List Account × List Event
  | [], _, _, _ => ([], [])
  | a :: rest, i, delta, reason =>
      if a.id = i then
        let r := a.updateBalance delta reason
        (r.1 :: rest, r.2)
      else
        let r := updateBalanceAt rest i delta reason
        (a :: r.1, r.2)

/-- Balance of the account with the given id (JS would read it through the
object reference; first match, 0 if absent). -/
def balanceAt (accts : List Account) (i : Nat) : ℚ :=
  match accts.find? (fun a => a.id = i) with
  | some a => a.balance
  | none => 0

/-- Commands (Command pattern): DepositCommand, WithdrawCommand,
TransferCommand; each captures its account reference(s) by id and an
immutable amount. -/
inductive Command where
  | deposit (acctId : Nat) (amount : ℚ)
  | withdraw (acctId : Nat) (amount : ℚ)
  | transfer (fromId toId : Nat) (amount : ℚ)
deriving DecidableEq, Repr

/-- Embeds `execute()` of each command class, acting on the ledger. -/
def Command.execute : Command → List Account → List Account × List Event
  | .deposit i amt, accts => updateBalanceAt accts i amt .deposit
  | .withdraw i amt, accts =>
      if balanceAt accts i < amt then
        (accts, [.notice (.withdrawFailed i)])
      else
        updateBalanceAt accts i (-amt) .withdraw
  | .transfer f t amt, accts =>
      if balanceAt accts f < amt then
        (accts, [.notice (.transferFailed f)])
      else
        let r1 := updateBalanceAt accts f (-amt) (.transferOut t)
        let r2 := updateBalanceAt r1.1 t amt (.transferIn f)
        (r2.1, r1.2 ++ r2.2)

/-- Embeds `undo()` of each command class: unconditional reversal. -/
def Command.undo : Command → List Account → List Account × List Event
  | .deposit i amt, accts => updateBalanceAt accts i (-amt) .undoDeposit
  | .withdraw i amt, accts => updateBalanceAt accts i amt .undoWithdraw
  | .transfer f t amt, accts =>
      let r1 := updateBalanceAt accts f amt (.undoTransferFrom f)
      let r2 := updateBalanceAt r1.1 t (-amt) (.undoTransferTo t)
      (r2.1, r1.2 ++ r2.2)

/-- Whether a command's execute guard passes on a ledger (deposit has no
guard; withdraw/transfer guard on the (source) balance). Derived from the
guard tests at the top of each `execute`. -/
def Command.guardPasses : Command → List Account → Prop
  | .deposit _ _, _ => True
  | .withdraw i amt, accts => ¬ balanceAt accts i < amt
  | .transfer f _ amt, accts => ¬ balanceAt accts f < amt

instance (cmd : Command) (accts : List Account) :
    Decidable (cmd.guardPasses accts) :=
  match cmd with
  | .deposit _ _ => isTrue trivial
  | .withdraw i amt => inferInstanceAs (Decidable (¬ balanceAt accts i < amt))
  | .transfer f _ amt => inferInstanceAs (Decidable (¬ balanceAt accts f < amt))

/-- The state the TransactionManager acts on: the live accounts plus the
history stack. The head of `history` is the most recently pushed command
(JS pushes/pops at the array tail). -/
structure BankState where
  accounts : List Account
  history : List Command
deriving DecidableEq, Repr

/-- Embeds `TransactionManager.executeCommand(cmd)`: calls `cmd.execute()`, then
unconditionally pushes `cmd` onto the history. -/
def executeCommand (s : BankState) (cmd : Command) : BankState × List Event :=
  let r := cmd.execute s.accounts
  ({ accounts := r.1, history := cmd :: s.history }, r.2)

/-- Embeds `TransactionManager.undoLast()`: on empty history, one notice and no
change; otherwise pop the most recent command and call its `undo()`. -/
def undoLast (s : BankState) : BankState × List Event :=
  match s.history with
  | [] => (s, [.notice .nothingToUndo])
  | cmd :: rest =>
      let r := cmd.undo s.accounts
      ({ accounts := r.1, history := rest }, r.2)

/-- The Account constructor dispatched on the type key, as in
`App.createAccount`'s switch: 'savings' / 'current' / 'fixed' build the
corresponding subclass (which overrides typeName and the strategy), any
other key builds a plain Account (typeName 'Generic', CurrentInterest).
The fresh id comes from the `accountIdSeq` counter, and the observer list
starts empty. -/
def mkAccount (type : String) (owner : Nat) (initial : ℚ) (i : Nat) :
    Account :=
  if type = "savings" then
    { id := i, owner := owner, balance := initial, observers := [],
      strategy := .savings, typeName := "Savings" }
  else if type = "current" then
    { id := i, owner := owner, balance := initial, observers := [],
      strategy := .current, typeName := "Current" }
  else if type = "fixed" then
    { id := i, owner := owner, balance := initial, observers := [],
      strategy := .fixedDeposit, typeName := "FixedDeposit" }
  else
    { id := i, owner := owner, balance := initial, observers := [],
      strategy := .current, typeName := "Generic" }

/-- Embeds `account.setInterestStrategy` called through an account reference,
resolved to the first account with the given id in the ledger. -/
def setStrategyAt : List Account → Nat → InterestStrategy → List Account
  | [], _, _ => []
  | a :: rest, i, s =>
      if a.id = i then a.setInterestStrategy s :: rest
      else a :: setStrategyAt rest i s

/-- The App module state: the customers array (a customer is identified by
its index; only the name is data), the bank state (accounts array plus the
TransactionManager history) and the `accountIdSeq` counter. -/
structure AppState where
  customers : List String
  bank : BankState
  nextAccountId : Nat
deriving DecidableEq, Repr

/-- The state at load time: no customers, no accounts, empty history,
`accountIdSeq = 1`. -/
def initialAppState : AppState :=
  { customers := [], bank := { accounts := [], history := [] },
    nextAccountId := 1 }

namespace App

/-- Embeds `App.addCustomer(name)`. -/
def addCustomer (s : AppState) (name : String) : AppState × List Event :=
  ({ s with customers := s.customers ++ [name] },
   [.notice (.addedCustomer name)])

/-- Embeds `App.createAccount(type, ownerIdx, initial)`: resolves the owner by
index (aborting with a notice if absent), builds the account with a fresh
id, attaches the owner as an observer, and appends it to the accounts
array. -/
def createAccount (s : AppState) (type : String) (ownerIdx : Nat)
    (initial : ℚ) : AppState × List Event :=
  match s.customers[ownerIdx]? with
  | none => (s, [.notice .selectOwner])
  | some _ =>
      let acct := (mkAccount type ownerIdx initial s.nextAccountId).attach
        ownerIdx
      ({ s with
          bank := { s.bank with accounts := s.bank.accounts ++ [acct] },
          nextAccountId := s.nextAccountId + 1 },
       [.notice (.createdAccount acct.id)])

/-- Embeds `App.findAccountById`. -/
def findAccountById (s : AppState) (i : Nat) : Option Account :=
  s.bank.accounts.find? (fun a => a.id = i)

/-- Embeds `App.deposit(accountId, amount)`: aborts with a notice on an unknown
id, otherwise routes a DepositCommand through the TransactionManager. -/
def deposit (s : AppState) (accountId : Nat) (amount : ℚ) :
    AppState × List Event :=
  match findAccountById s accountId with
  | none => (s, [.notice .selectValidAccount])
  | some _ =>
      let r := executeCommand s.bank (.deposit accountId amount)
      ({ s with bank := r.1 }, r.2)

/-- Embeds `App.withdraw(accountId, amount)`. -/
def withdraw (s : AppState) (accountId : Nat) (amount : ℚ) :
    AppState × List Event :=
  match findAccountById s accountId with
  | none => (s, [.notice .selectValidAccount])
  | some _ =>
      let r := executeCommand s.bank (.withdraw accountId amount)
      ({ s with bank := r.1 }, r.2)

/-- Embeds `App.transfer(fromId, toId, amount)`: both accounts must resolve and a
self-transfer is rejected before the command is constructed. -/
def transfer (s : AppState) (fromId toId : Nat) (amount : ℚ) :
    AppState × List Event :=
  match findAccountById s fromId, findAccountById s toId with
  | some fa, some ta =>
      if fa.id = ta.id then (s, [.notice .cannotTransferSame])
      else
        let r := executeCommand s.bank (.transfer fromId toId amount)
        ({ s with bank := r.1 }, r.2)
  | _, _ => (s, [.notice .selectValidAccounts])

/-- Embeds `App.undoLast()`. -/
def undoLastOp (s : AppState) : AppState × List Event :=
  let r := undoLast s.bank
  ({ s with bank := r.1 }, r.2)

/-- Embeds `App.applyStrategy(accountId, key)`: aborts with a notice on an
unknown id; the switch replaces the strategy for the known keys and leaves
it unchanged otherwise, then a notice is emitted either way. -/
def applyStrategy (s : AppState) (accountId : Nat) (key : String) :
    AppState × List Event :=
  match findAccountById s accountId with
  | none => (s, [.notice .selectAccountStrategy])
  | some _ =>
      let accts :=
        if key = "savings" then
          setStrategyAt s.bank.accounts accountId .savings
        else if key = "fixed" then
          setStrategyAt s.bank.accounts accountId .fixedDeposit
        else if key = "current" then
          setStrategyAt s.bank.accounts accountId .current
        else s.bank.accounts
      ({ s with bank := { s.bank with accounts := accts } },
       [.notice (.appliedStrategy accountId)])

/-- Embeds `App.calcInterest(accountId)`: returns 0 with a notice on an unknown
id, otherwise the account's `calculateInterest()`; no state is written. -/
def calcInterest (s : AppState) (accountId : Nat) : ℚ × List Event :=
  match findAccountById s accountId with
  | none => (0, [.notice .selectAccountInterest])
  | some a => (a.calculateInterest, [])

end App

/-- The public operations a collaborator can drive the App with. -/
inductive AppOp where
  | addCustomer (name : String)
  | createAccount (type : String) (ownerIdx : Nat) (initial : ℚ)
  | deposit (accountId : Nat) (amount : ℚ)
  | withdraw (accountId : Nat) (amount : ℚ)
  | transfer (fromId toId : Nat) (amount : ℚ)
  | undoLast
  | applyStrategy (accountId : Nat) (key : String)
deriving DecidableEq, Repr

/-- One App operation applied to the state. -/
def AppOp.step (s : AppState) : AppOp → AppState × List Event
  | .addCustomer name => App.addCustomer s name
  | .createAccount type ownerIdx initial =>
      App.createAccount s type ownerIdx initial
  | .deposit i amt => App.deposit s i amt
  | .withdraw i amt => App.withdraw s i amt
  | .transfer f t amt => App.transfer s f t amt
  | .undoLast => App.undoLastOp s
  | .applyStrategy i key => App.applyStrategy s i key

/-- The App state after a sequence of public operations from load time. -/
def runApp (ops : List AppOp) : AppState :=
  ops.foldl (fun s op => (op.step s).1) initialAppState

/-! ## Basic lemmas about the ledger primitives -/

theorem updateBalanceAt_map_id (accts : List Account) (i : Nat) (d : ℚ)
    (r : Reason) :
    ((updateBalanceAt accts i d r).1).map Account.id = accts.map Account.id := by
  induction accts with
  | nil => simp [updateBalanceAt]
  | cons a rest ih =>
      by_cases h : a.id = i <;>
        simp [updateBalanceAt, h, Account.updateBalance, ih]

theorem updateBalanceAt_fst_reason (accts : List Account) (i : Nat) (d : ℚ)
    (r r' : Reason) :
    (updateBalanceAt accts i d r).1 = (updateBalanceAt accts i d r').1 := by
  induction accts with
  | nil => simp [updateBalanceAt]
  | cons a rest ih =>
      by_cases h : a.id = i <;>
        simp [updateBalanceAt, h, Account.updateBalance, ih]

theorem updateBalanceAt_cancel (accts : List Account) (i : Nat) (d d' : ℚ)
    (hd : d + d' = 0) (r r' : Reason) :
    (updateBalanceAt (updateBalanceAt accts i d r).1 i d' r').1 = accts := by
  induction accts with
  | nil => simp [updateBalanceAt]
  | cons a rest ih =>
      by_cases h : a.id = i
      · subst h
        simp [updateBalanceAt, Account.updateBalance, add_assoc, hd]
      · simp [updateBalanceAt, h, Account.updateBalance, ih]

theorem updateBalanceAt_twice_same (accts : List Account) (i : Nat)
    (d d' : ℚ) (r r' : Reason) :
    (updateBalanceAt (updateBalanceAt accts i d r).1 i d' r').1 =
      (updateBalanceAt (updateBalanceAt accts i d' r').1 i d r).1 := by
  induction accts with
  | nil => simp [updateBalanceAt]
  | cons a rest ih =>
      by_cases h : a.id = i
      · subst h
        simp [updateBalanceAt, Account.updateBalance, add_assoc,
          add_comm d d']
      · simp [updateBalanceAt, h, Account.updateBalance, ih]

theorem updateBalanceAt_comm (accts : List Account) (i j : Nat) (d d' : ℚ)
    (r r' : Reason) (hij : i ≠ j) :
    (updateBalanceAt (updateBalanceAt accts i d r).1 j d' r').1 =
      (updateBalanceAt (updateBalanceAt accts j d' r').1 i d r).1 := by
  have hji : j ≠ i := Ne.symm hij
  induction accts with
  | nil => simp [updateBalanceAt]
  | cons a rest ih =>
      by_cases hi : a.id = i
      · subst hi
        simp [updateBalanceAt, hij, hji, Account.updateBalance]
      · by_cases hj : a.id = j
        · subst hj
          simp [updateBalanceAt, hij, hji, hi, Account.updateBalance]
        · simp [updateBalanceAt, hi, hj, Account.updateBalance, ih]

theorem balanceAt_cons_eq (a : Account) (rest : List Account) (i : Nat)
    (h : a.id = i) : balanceAt (a :: rest) i = a.balance := by
  simp [balanceAt, List.find?_cons, h]

theorem balanceAt_cons_ne (a : Account) (rest : List Account) (i : Nat)
    (h : ¬ a.id = i) : balanceAt (a :: rest) i = balanceAt rest i := by
  simp [balanceAt, List.find?_cons, h]

theorem balanceAt_updateBalanceAt_same (accts : List Account) (i : Nat)
    (d : ℚ) (r : Reason) (h : i ∈ accts.map Account.id) :
    balanceAt (updateBalanceAt accts i d r).1 i = balanceAt accts i + d := by
  induction accts with
  | nil => simp at h
  | cons a rest ih =>
      by_cases hi : a.id = i
      · subst hi
        simp [updateBalanceAt, Account.updateBalance, balanceAt_cons_eq]
      · have h' : i ∈ rest.map Account.id := by
          simp only [List.map_cons, List.mem_cons] at h
          rcases h with h1 | h1
          · exact absurd h1.symm hi
          · exact h1
        simp [updateBalanceAt, hi, balanceAt_cons_ne, ih h']

theorem balanceAt_updateBalanceAt_other (accts : List Account) (i j : Nat)
    (d : ℚ) (r : Reason) (h : i ≠ j) :
    balanceAt (updateBalanceAt accts i d r).1 j = balanceAt accts j := by
  induction accts with
  | nil => simp [updateBalanceAt]
  | cons a rest ih =>
      by_cases hi : a.id = i
      · subst hi
        have hj : ¬ a.id = j := h
        simp [updateBalanceAt, Account.updateBalance, balanceAt_cons_ne, hj]
      · by_cases hj : a.id = j
        · subst hj
          simp [updateBalanceAt, hi, balanceAt_cons_eq]
        · simp [updateBalanceAt, hi, balanceAt_cons_ne, hj, ih]

theorem updateBalanceAt_events (accts : List Account) (i : Nat) (d : ℚ)
    (r : Reason) :
    ∀ ev ∈ (updateBalanceAt accts i d r).2,
      ev.acctOf = some i ∧ ev.deltaOf = some d ∧ ev.isNotice = false := by
  induction accts with
  | nil => simp [updateBalanceAt]
  | cons a rest ih =>
      by_cases hi : a.id = i
      · subst hi
        simp [updateBalanceAt, Account.updateBalance, Account.notifyEvents,
          Event.acctOf, Event.deltaOf, Event.isNotice]
      · simpa [updateBalanceAt, hi] using ih

/-! ## Concrete fixtures used by the witness theorems -/

/-- A savings account fixture: id 1, owner 0, balance 1000, owner
attached. -/
def acctA : Account :=
  { id := 1, owner := 0, balance := 1000, observers := [0],
    strategy := .savings, typeName := "Savings" }

/-- A current account fixture: id 2, owner 1, balance 200, owner
attached. -/
def acctB : Account :=
  { id := 2, owner := 1, balance := 200, observers := [1],
    strategy := .current, typeName := "Current" }

/-- A current account fixture: id 1, owner 0, balance 500. -/
def acct500 : Account :=
  { id := 1, owner := 0, balance := 500, observers := [0],
    strategy := .current, typeName := "Current" }

/-- Bank fixture holding accounts A and B with empty history. -/
def bankAB : BankState := { accounts := [acctA, acctB], history := [] }

/-- Bank fixture holding the balance-500 account with empty history. -/
def bank500 : BankState := { accounts := [acct500], history := [] }

/-! ## The claims -/

/-- C1: for every command whose execute guard passed (so execute actually
mutated state), `executeCommand` immediately followed by `undoLast`
restores the exact pre-execute state: every account — in particular every
account the command touches — has its pre-execute balance back, and the
history is as before. -/
theorem C1_executeCommand_undoLast_roundtrip (s : BankState) (cmd : Command)
    (h : cmd.guardPasses s.accounts) :
    (undoLast (executeCommand s cmd).1).1 = s := by
  cases cmd with
  | deposit i amt =>
      have hc := updateBalanceAt_cancel s.accounts i amt (-amt) (by ring)
        .deposit .undoDeposit
      simp [executeCommand, undoLast, Command.execute, Command.undo, hc]
  | withdraw i amt =>
      have hg : ¬ balanceAt s.accounts i < amt := h
      have hc := updateBalanceAt_cancel s.accounts i (-amt) amt (by ring)
        .withdraw .undoWithdraw
      simp [executeCommand, undoLast, Command.execute, Command.undo, hg, hc]
  | transfer f t amt =>
      have hg : ¬ balanceAt s.accounts f < amt := h
      by_cases hft : f = t
      · subst hft
        have h1 := updateBalanceAt_cancel s.accounts f (-amt) amt (by ring)
          (.transferOut f) (.transferIn f)
        have h2 := updateBalanceAt_cancel s.accounts f amt (-amt) (by ring)
          (.undoTransferFrom f) (.undoTransferTo f)
        simp [executeCommand, undoLast, Command.execute, Command.undo, hg,
          h1, h2]
      · have hne : t ≠ f := fun hh => hft hh.symm
        have hcomm := updateBalanceAt_comm
          (updateBalanceAt s.accounts f (-amt) (.transferOut t)).1 t f amt
          amt (.transferIn f) (.undoTransferFrom f) hne
        have hc1 := updateBalanceAt_cancel s.accounts f (-amt) amt (by ring)
          (.transferOut t) (.undoTransferFrom f)
        have hc2 := updateBalanceAt_cancel s.accounts t amt (-amt) (by ring)
          (.transferIn f) (.undoTransferTo t)
        simp [executeCommand, undoLast, Command.execute, Command.undo, hg,
          hcomm, hc1, hc2]

/-- Witness for C1: transferring 300 from account 1 (balance 1000) to
account 2 (balance 200) passes the guard, and execute-then-undo restores
the whole bank state. -/
theorem C1_witness :
    Command.guardPasses (.transfer 1 2 300) bankAB.accounts ∧
      (undoLast (executeCommand bankAB (.transfer 1 2 300)).1).1 = bankAB :=
  ⟨by decide,
   C1_executeCommand_undoLast_roundtrip bankAB (.transfer 1 2 300)
     (by decide)⟩

/-- C2: `executeCommand` calls the command's execute (the resulting
accounts and events are exactly those of `cmd.execute`) and then pushes
the command onto the history unconditionally — also when the execute
aborted on its insufficient-funds guard.  Consequently (concrete part):
on a bank with one account of balance 500, a withdraw of 700 aborts and
changes nothing, yet a subsequent `undoLast` pops it and credits 700,
leaving balance 1200 — reversing a change that never happened. -/
theorem C2_unconditional_push :
    (∀ (s : BankState) (cmd : Command),
        (executeCommand s cmd).1.history = cmd :: s.history ∧
          (executeCommand s cmd).1.accounts = (cmd.execute s.accounts).1 ∧
          (executeCommand s cmd).2 = (cmd.execute s.accounts).2) ∧
      (executeCommand bank500 (.withdraw 1 700)).1.accounts =
        bank500.accounts ∧
      balanceAt
        (undoLast (executeCommand bank500 (.withdraw 1 700)).1).1.accounts
        1 = 1200 ∧
      balanceAt bank500.accounts 1 = 500 := by
  refine ⟨fun s cmd => ⟨rfl, rfl, rfl⟩, ?_, ?_, ?_⟩
  · norm_num [executeCommand, Command.execute, balanceAt, bank500, acct500,
      List.find?]
  · norm_num [executeCommand, undoLast, Command.execute, Command.undo,
      updateBalanceAt, Account.updateBalance, balanceAt, bank500, acct500,
      List.find?]
  · norm_num [balanceAt, bank500, acct500, List.find?]

/-- C3: a withdraw whose amount exceeds the account's balance, and a
transfer whose amount exceeds the source's balance, change no account
balance (the ledger is returned unchanged), emit exactly one operational
failure notice naming the offending account, and deliver no balance-change
notification to any observer (the event list is exactly that single
notice). -/
theorem C3_insufficient_funds_aborts (accts : List Account) (i f t : Nat)
    (amtW amtT : ℚ) (hw : balanceAt accts i < amtW)
    (ht : balanceAt accts f < amtT) :
    (Command.withdraw i amtW).execute accts =
      (accts, [.notice (.withdrawFailed i)]) ∧
    (Command.transfer f t amtT).execute accts =
      (accts, [.notice (.transferFailed f)]) := by
  constructor <;> simp [Command.execute, hw, ht]

/-- Witness for C3: withdrawing 700 from, and transferring 700 out of, the
balance-500 account aborts with exactly one notice each. -/
theorem C3_witness :
    balanceAt [acct500] 1 < 700 ∧
      (Command.withdraw 1 (700 : ℚ)).execute [acct500] =
        ([acct500], [.notice (.withdrawFailed 1)]) ∧
      (Command.transfer 1 2 (700 : ℚ)).execute [acct500] =
        ([acct500], [.notice (.transferFailed 1)]) :=
  ⟨by decide,
   (C3_insufficient_funds_aborts [acct500] 1 1 2 700 700 (by decide)
      (by decide)).1,
   (C3_insufficient_funds_aborts [acct500] 1 1 2 700 700 (by decide)
      (by decide)).2⟩

/-- C4: `undoLast` on a state with empty history returns the state
unchanged (no account balance and no history change) and emits exactly one
"nothing to undo" operational notice; since the state is returned
unchanged, every repeated call behaves the same. -/
theorem C4_undo_empty_history (s : BankState) (h : s.history = []) :
    undoLast s = (s, [.notice .nothingToUndo]) := by
  rcases s with ⟨accts, hist⟩
  have h' : hist = [] := h
  subst h'
  simp [undoLast]

/-- Witness for C4: undo on the fresh two-account bank (empty history)
changes nothing and emits the notice. -/
theorem C4_witness :
    bankAB.history = [] ∧
      undoLast bankAB = (bankAB, [.notice .nothingToUndo]) :=
  ⟨rfl, C4_undo_empty_history bankAB rfl⟩

/-- C5: a transfer whose guard passes debits the source and then credits
the destination, each via `updateBalance` and in that order — the emitted
events split as debit notifications (account `f`, delta `-amt`) followed
by credit notifications (account `t`, delta `+amt`) — and the balances
move by `-amt` / `+amt`; `undo` emits credit-source notifications before
debit-destination notifications unconditionally, moving the balances by
`+amt` / `-amt`.  Concretely (Scenario C): with A = 1000 and B = 200,
transfer(A→B, 300) yields A = 700, B = 500, and a subsequent `undoLast`
restores A = 1000, B = 200. -/
theorem C5_transfer_debit_then_credit :
    (∀ (accts : List Account) (f t : Nat) (amt : ℚ),
        ¬ balanceAt accts f < amt → f ≠ t →
        f ∈ accts.map Account.id → t ∈ accts.map Account.id →
        balanceAt ((Command.transfer f t amt).execute accts).1 f =
            balanceAt accts f - amt ∧
          balanceAt ((Command.transfer f t amt).execute accts).1 t =
            balanceAt accts t + amt ∧
          ∃ e1 e2, ((Command.transfer f t amt).execute accts).2 = e1 ++ e2 ∧
            (∀ ev ∈ e1, ev.acctOf = some f ∧ ev.deltaOf = some (-amt)) ∧
            (∀ ev ∈ e2, ev.acctOf = some t ∧ ev.deltaOf = some amt)) ∧
    (∀ (accts : List Account) (f t : Nat) (amt : ℚ),
        (∃ e1 e2, ((Command.transfer f t amt).undo accts).2 = e1 ++ e2 ∧
          (∀ ev ∈ e1, ev.acctOf = some f ∧ ev.deltaOf = some amt) ∧
          (∀ ev ∈ e2, ev.acctOf = some t ∧ ev.deltaOf = some (-amt))) ∧
        (f ≠ t → f ∈ accts.map Account.id → t ∈ accts.map Account.id →
          balanceAt ((Command.transfer f t amt).undo accts).1 f =
              balanceAt accts f + amt ∧
            balanceAt ((Command.transfer f t amt).undo accts).1 t =
              balanceAt accts t - amt)) ∧
    (balanceAt ((Command.transfer 1 2 (300 : ℚ)).execute
        bankAB.accounts).1 1 = 700 ∧
      balanceAt ((Command.transfer 1 2 (300 : ℚ)).execute
        bankAB.accounts).1 2 = 500 ∧
      balanceAt (undoLast
        (executeCommand bankAB (.transfer 1 2 300)).1).1.accounts 1 = 1000 ∧
      balanceAt (undoLast
        (executeCommand bankAB (.transfer 1 2 300)).1).1.accounts 2 = 200) := by
  refine ⟨?_, ?_, ?_⟩
  · intro accts f t amt hg hft hf ht
    have htf : t ≠ f := fun hh => hft hh.symm
    have hexec : (Command.transfer f t amt).execute accts =
        ((updateBalanceAt (updateBalanceAt accts f (-amt)
            (.transferOut t)).1 t amt (.transferIn f)).1,
         (updateBalanceAt accts f (-amt) (.transferOut t)).2 ++
           (updateBalanceAt (updateBalanceAt accts f (-amt)
             (.transferOut t)).1 t amt (.transferIn f)).2) := by
      simp [Command.execute, hg]
    have ht' : t ∈ ((updateBalanceAt accts f (-amt)
        (.transferOut t)).1).map Account.id := by
      rw [updateBalanceAt_map_id]; exact ht
    refine ⟨?_, ?_, ?_⟩
    · rw [hexec]
      rw [balanceAt_updateBalanceAt_other _ t f amt _ htf,
        balanceAt_updateBalanceAt_same _ f (-amt) _ hf]
      ring
    · rw [hexec]
      rw [balanceAt_updateBalanceAt_same _ t amt _ ht',
        balanceAt_updateBalanceAt_other _ f t (-amt) _ hft]
    · refine ⟨_, _, by rw [hexec], fun ev hev => ?_, fun ev hev => ?_⟩
      · exact ⟨(updateBalanceAt_events _ f (-amt) _ ev hev).1,
          (updateBalanceAt_events _ f (-amt) _ ev hev).2.1⟩
      · exact ⟨(updateBalanceAt_events _ t amt _ ev hev).1,
          (updateBalanceAt_events _ t amt _ ev hev).2.1⟩
  · intro accts f t amt
    have hundo : (Command.transfer f t amt).undo accts =
        ((updateBalanceAt (updateBalanceAt accts f amt
            (.undoTransferFrom f)).1 t (-amt) (.undoTransferTo t)).1,
         (updateBalanceAt accts f amt (.undoTransferFrom f)).2 ++
           (updateBalanceAt (updateBalanceAt accts f amt
             (.undoTransferFrom f)).1 t (-amt) (.undoTransferTo t)).2) := by
      simp [Command.undo]
    constructor
    · refine ⟨_, _, by rw [hundo], fun ev hev => ?_, fun ev hev => ?_⟩
      · exact ⟨(updateBalanceAt_events _ f amt _ ev hev).1,
          (updateBalanceAt_events _ f amt _ ev hev).2.1⟩
      · exact ⟨(updateBalanceAt_events _ t (-amt) _ ev hev).1,
          (updateBalanceAt_events _ t (-amt) _ ev hev).2.1⟩
    · intro hft hf ht
      have htf : t ≠ f := fun hh => hft hh.symm
      have ht' : t ∈ ((updateBalanceAt accts f amt
          (.undoTransferFrom f)).1).map Account.id := by
        rw [updateBalanceAt_map_id]; exact ht
      constructor
      · rw [hundo]
        rw [balanceAt_updateBalanceAt_other _ t f (-amt) _ htf,
          balanceAt_updateBalanceAt_same _ f amt _ hf]
      · rw [hundo]
        rw [balanceAt_updateBalanceAt_same _ t (-amt) _ ht',
          balanceAt_updateBalanceAt_other _ f t amt _ hft]
        ring
  · refine ⟨?_, ?_, ?_, ?_⟩ <;>
      norm_num [executeCommand, undoLast, Command.execute, Command.undo,
        updateBalanceAt, Account.updateBalance, Account.notifyEvents,
        balanceAt, bankAB, acctA, acctB, List.find?]

/-- Witness for C5: the guard and side conditions hold for
transfer(1→2, 300) on the A/B bank, and the debit/credit balance moves
follow from the theorem. -/
theorem C5_witness :
    (¬ balanceAt bankAB.accounts 1 < 300) ∧ (1 : Nat) ≠ 2 ∧
      1 ∈ bankAB.accounts.map Account.id ∧
      2 ∈ bankAB.accounts.map Account.id ∧
      balanceAt ((Command.transfer 1 2 (300 : ℚ)).execute
          bankAB.accounts).1 1 = balanceAt bankAB.accounts 1 - 300 ∧
      balanceAt ((Command.transfer 1 2 (300 : ℚ)).execute
          bankAB.accounts).1 2 = balanceAt bankAB.accounts 2 + 300 :=
  ⟨by decide, by decide, by decide, by decide,
   (C5_transfer_debit_then_credit.1 bankAB.accounts 1 2 300 (by decide)
      (by decide) (by decide) (by decide)).1,
   (C5_transfer_debit_then_credit.1 bankAB.accounts 1 2 300 (by decide)
      (by decide) (by decide) (by decide)).2.1⟩

/-- C6: `calculateInterest` returns the active strategy applied to the
current balance (its embedding is a pure function of the account, so no
balance is ever written): Savings yields balance · 3/100, FixedDeposit
yields balance · 7/100, Current/Generic yields 0; the App-level
`calcInterest` returns exactly that value for a resolved account; and a
Savings account with balance 1500 yields 45 (rendered 45.00). -/
theorem C6_calculateInterest_strategy (s : AppState) (i : Nat)
    (acct : Account) (hfind : App.findAccountById s i = some acct) :
    (∀ a : Account, a.calculateInterest = a.strategy.calculate a.balance) ∧
    (∀ b : ℚ, InterestStrategy.calculate .savings b = b * (3 / 100) ∧
      InterestStrategy.calculate .fixedDeposit b = b * (7 / 100) ∧
      InterestStrategy.calculate .current b = 0) ∧
    App.calcInterest s i = (acct.strategy.calculate acct.balance, []) ∧
    (∀ a : Account, a.strategy = .savings → a.balance = 1500 →
      a.calculateInterest = 45) := by
  refine ⟨fun a => rfl, fun b => ⟨rfl, rfl, rfl⟩, ?_, ?_⟩
  · simp [App.calcInterest, hfind, Account.calculateInterest]
  · intro a hs hb
    rw [Account.calculateInterest, hs, hb]
    norm_num [InterestStrategy.calculate]

/-- Witness for C6: looking up account 1 in the A/B app state finds the
savings account A, and its interest is 3% of 1000. -/
theorem C6_witness :
    App.findAccountById
        { customers := ["Shivani", "Ravi"], bank := bankAB,
          nextAccountId := 3 } 1 = some acctA ∧
      App.calcInterest
        { customers := ["Shivani", "Ravi"], bank := bankAB,
          nextAccountId := 3 } 1 =
        (acctA.strategy.calculate acctA.balance, []) :=
  ⟨by decide,
   (C6_calculateInterest_strategy
      { customers := ["Shivani", "Ravi"], bank := bankAB,
        nextAccountId := 3 } 1 acctA (by decide)).2.2.1⟩

theorem countP_balanceMsg (l : List Nat) (i : Nat) (r : Reason)
    (d nb : ℚ) (obs : Nat) :
    (l.map (fun o => Event.balanceMsg o i r d nb)).countP
      (fun ev => ev.obsOf == some obs) = l.count obs := by
  induction l with
  | nil => simp
  | cons x xs ih =>
      rw [List.map_cons, List.countP_cons, List.count_cons, ih]
      by_cases hx : x = obs
      · simp [Event.obsOf, hx]
      · simp [Event.obsOf, hx]

/-- C7: `attach` is idempotent — attaching an observer that is not yet
attached and then attaching it again any number of times leaves it in the
observer list exactly once, so every `updateBalance` call delivers exactly
one notification to that observer. -/
theorem C7_attach_idempotent (a : Account) (obs : Nat)
    (h : obs ∉ a.observers) :
    (a.attach obs).attach obs = a.attach obs ∧
    (∀ n : Nat, ((fun x => Account.attach x obs)^[n + 1] a).observers =
      (a.attach obs).observers) ∧
    (a.attach obs).observers.count obs = 1 ∧
    ∀ (d : ℚ) (r : Reason),
      ((a.attach obs).updateBalance d r).2.countP
        (fun ev => ev.obsOf == some obs) = 1 := by
  have hobs : (a.attach obs).observers = a.observers ++ [obs] := by
    simp [Account.attach, h]
  have hcount : (a.attach obs).observers.count obs = 1 := by
    rw [hobs]
    simp [List.count_append, List.count_eq_zero_of_not_mem h]
  have key : ∀ y : Account, obs ∈ y.observers →
      (y.attach obs).observers = y.observers := fun y hy => by
    simp [Account.attach, hy]
  refine ⟨?_, ?_, hcount, ?_⟩
  · simp [Account.attach, h]
  · intro n
    induction n with
    | zero => simp
    | succ n ih =>
        have hmem :
            obs ∈ ((fun x => Account.attach x obs)^[n + 1] a).observers := by
          rw [ih, hobs]; simp
        rw [Function.iterate_succ_apply']
        show (Account.attach _ obs).observers = _
        rw [key _ hmem, ih]
  · intro d r
    simp only [Account.updateBalance, Account.notifyEvents]
    rw [countP_balanceMsg]
    exact hcount

/-- Witness for C7: observer 5 is not attached to account A; attaching it
twice equals attaching it once, and it then appears exactly once. -/
theorem C7_witness :
    5 ∉ acctA.observers ∧
      (acctA.attach 5).attach 5 = acctA.attach 5 ∧
      (acctA.attach 5).observers.count 5 = 1 :=
  ⟨by decide, (C7_attach_idempotent acctA 5 (by decide)).1,
   (C7_attach_idempotent acctA 5 (by decide)).2.2.1⟩

/-- App state fixture: one customer "Shivani", empty bank, counter 1. -/
def appShivani : AppState :=
  { customers := ["Shivani"], bank := { accounts := [], history := [] },
    nextAccountId := 1 }

/-- C8: `createAccount` with a valid owner appends a new account whose
owner is that customer and whose observer list is exactly the owner (the
constructor starts with no observers and the owner is attached right
away); and since `updateBalance` preserves the observer list and notifies
every attached observer, the owner receives a notification for every
subsequent balance change on the account. -/
theorem C8_createAccount_attaches_owner (s : AppState) (type : String)
    (ownerIdx : Nat) (initial : ℚ) (name : String)
    (h : s.customers[ownerIdx]? = some name) :
    (∃ acct,
      (App.createAccount s type ownerIdx initial).1.bank.accounts =
        s.bank.accounts ++ [acct] ∧
      acct.owner = ownerIdx ∧ acct.observers = [ownerIdx]) ∧
    (∀ (a : Account) (obs : Nat) (d : ℚ) (r : Reason),
      (a.updateBalance d r).1.observers = a.observers ∧
      (obs ∈ a.observers →
        ∃ ev ∈ (a.updateBalance d r).2, ev.obsOf = some obs)) := by
  constructor
  · refine ⟨(mkAccount type ownerIdx initial s.nextAccountId).attach
      ownerIdx, ?_, ?_, ?_⟩
    · simp [App.createAccount, h]
    · unfold mkAccount Account.attach
      split_ifs <;> rfl
    · unfold mkAccount Account.attach
      split_ifs <;> simp_all
  · intro a obs d r
    refine ⟨by simp [Account.updateBalance], fun hobs => ?_⟩
    simp only [Account.updateBalance, Account.notifyEvents]
    exact ⟨Event.balanceMsg obs a.id r d (a.balance + d),
      List.mem_map_of_mem _ hobs, rfl⟩

/-- Witness for C8: creating a savings account for customer 0 in the
one-customer app attaches that owner as the sole observer. -/
theorem C8_witness :
    appShivani.customers[0]? = some "Shivani" ∧
      ∃ acct,
        (App.createAccount appShivani "savings" 0 1500).1.bank.accounts =
          appShivani.bank.accounts ++ [acct] ∧
        acct.owner = 0 ∧ acct.observers = [0] :=
  ⟨rfl,
   (C8_createAccount_attaches_owner appShivani "savings" 0 1500 "Shivani"
      rfl).1⟩

/-- C10 (implicit): deposit validates nothing — for every amount,
including zero and negative values, DepositCommand.execute adds the
amount to the balance unconditionally and emits no operational notice;
concretely, depositing −700 into the balance-500 account leaves −200,
below zero, with no guard and no failure notice. -/
theorem C10_deposit_unvalidated (accts : List Account) (i : Nat) (amt : ℚ)
    (hmem : i ∈ accts.map Account.id) :
    balanceAt ((Command.deposit i amt).execute accts).1 i =
      balanceAt accts i + amt ∧
    (∀ ev ∈ ((Command.deposit i amt).execute accts).2,
      ev.isNotice = false) ∧
    balanceAt ((Command.deposit 1 (-700 : ℚ)).execute [acct500]).1 1 =
      -200 := by
  refine ⟨?_, ?_, ?_⟩
  · exact balanceAt_updateBalanceAt_same accts i amt .deposit hmem
  · intro ev hev
    exact (updateBalanceAt_events accts i amt .deposit ev hev).2.2
  · norm_num [Command.execute, updateBalanceAt, Account.updateBalance,
      balanceAt, acct500, List.find?]

/-- Witness for C10: a −700 deposit on the balance-500 account just adds
−700. -/
theorem C10_witness :
    1 ∈ ([acct500].map Account.id) ∧
      balanceAt ((Command.deposit 1 (-700 : ℚ)).execute [acct500]).1 1 =
        balanceAt [acct500] 1 + (-700) :=
  ⟨by decide, (C10_deposit_unvalidated [acct500] 1 (-700) (by decide)).1⟩

/-! ## Account-id bookkeeping for C9 -/

theorem Account.attach_id (a : Account) (o : Nat) : (a.attach o).id = a.id := by
  unfold Account.attach
  split <;> rfl

theorem mkAccount_id (type : String) (o : Nat) (initial : ℚ) (i : Nat) :
    (mkAccount type o initial i).id = i := by
  unfold mkAccount
  split_ifs <;> rfl

theorem setStrategyAt_map_id (accts : List Account) (i : Nat)
    (st : InterestStrategy) :
    (setStrategyAt accts i st).map Account.id = accts.map Account.id := by
  induction accts with
  | nil => simp [setStrategyAt]
  | cons a rest ih =>
      by_cases h : a.id = i <;>
        simp [setStrategyAt, h, Account.setInterestStrategy, ih]

theorem Command.execute_map_id (cmd : Command) (accts : List Account) :
    ((cmd.execute accts).1).map Account.id = accts.map Account.id := by
  cases cmd with
  | deposit i amt => simp [Command.execute, updateBalanceAt_map_id]
  | withdraw i amt =>
      by_cases h : balanceAt accts i < amt <;>
        simp [Command.execute, h, updateBalanceAt_map_id]
  | transfer f t amt =>
      by_cases h : balanceAt accts f < amt <;>
        simp [Command.execute, h, updateBalanceAt_map_id]

theorem Command.undo_map_id (cmd : Command) (accts : List Account) :
    ((cmd.undo accts).1).map Account.id = accts.map Account.id := by
  cases cmd <;> simp [Command.undo, updateBalanceAt_map_id]

/-- The id invariant of reachable App states: the ids of the accounts
array, in creation order, are strictly increasing, and all are below the
`accountIdSeq` counter (so a fresh id is never a reuse). -/
def AppIdInvariant (s : AppState) : Prop :=
  ((s.bank.accounts.map Account.id).Chain' (· < ·)) ∧
    ∀ a ∈ s.bank.accounts, a.id < s.nextAccountId

theorem appIdInvariant_of_eq (u v : AppState)
    (hmap : v.bank.accounts.map Account.id =
      u.bank.accounts.map Account.id)
    (hnext : v.nextAccountId = u.nextAccountId)
    (h : AppIdInvariant u) : AppIdInvariant v := by
  refine ⟨by rw [hmap]; exact h.1, ?_⟩
  intro a ha
  have hmem : a.id ∈ u.bank.accounts.map Account.id := by
    rw [← hmap]
    exact List.mem_map_of_mem _ ha
  rcases List.mem_map.1 hmem with ⟨b, hb, hid⟩
  rw [hnext, ← hid]
  exact h.2 b hb

theorem step_preserves_idInvariant (s : AppState) (op : AppOp)
    (h : AppIdInvariant s) : AppIdInvariant (op.step s).1 := by
  cases op with
  | addCustomer name => exact appIdInvariant_of_eq s _ rfl rfl h
  | createAccount type ownerIdx initial =>
      cases hc : s.customers[ownerIdx]? with
      | none =>
          have hstep : (AppOp.step s (.createAccount type ownerIdx
              initial)).1 = s := by
            simp [AppOp.step, App.createAccount, hc]
          rw [hstep]; exact h
      | some name =>
          have hid : ((mkAccount type ownerIdx initial
              s.nextAccountId).attach ownerIdx).id = s.nextAccountId := by
            rw [Account.attach_id, mkAccount_id]
          have hstep : (AppOp.step s (.createAccount type ownerIdx
              initial)).1 =
              { customers := s.customers,
                bank :=
                  { accounts := s.bank.accounts ++
                      [(mkAccount type ownerIdx initial
                        s.nextAccountId).attach ownerIdx],
                    history := s.bank.history },
                nextAccountId := s.nextAccountId + 1 } := by
            simp [AppOp.step, App.createAccount, hc]
          rw [hstep]
          refine ⟨?_, ?_⟩
          · simp only [List.map_append, List.map_cons, List.map_nil]
            rw [List.chain'_append]
            refine ⟨h.1, List.chain'_singleton _, ?_⟩
            intro x hx y hy
            have hy' : ((mkAccount type ownerIdx initial
                s.nextAccountId).attach ownerIdx).id = y := by simpa using hy
            have hxmem : x ∈ s.bank.accounts.map Account.id := by
              rcases List.mem_getLast?_eq_getLast hx with ⟨hne, hxl⟩
              rw [hxl]
              exact List.getLast_mem hne
            rcases List.mem_map.1 hxmem with ⟨b, hb, hbid⟩
            rw [← hy', hid, ← hbid]
            exact h.2 b hb
          · intro a ha
            simp only [List.mem_append, List.mem_singleton] at ha
            rcases ha with ha | ha
            · exact Nat.lt_succ_of_lt (h.2 a ha)
            · rw [ha, hid]
              exact Nat.lt_succ_self _
  | deposit i amt =>
      cases hf : App.findAccountById s i with
      | none =>
          have hstep : (AppOp.step s (.deposit i amt)).1 = s := by
            simp [AppOp.step, App.deposit, hf]
          rw [hstep]; exact h
      | some a =>
          have hstep : (AppOp.step s (.deposit i amt)).1 =
              { s with bank := (executeCommand s.bank
                  (.deposit i amt)).1 } := by
            simp [AppOp.step, App.deposit, hf]
          rw [hstep]
          exact appIdInvariant_of_eq s _
            (by simp [executeCommand, Command.execute_map_id]) rfl h
  | withdraw i amt =>
      cases hf : App.findAccountById s i with
      | none =>
          have hstep : (AppOp.step s (.withdraw i amt)).1 = s := by
            simp [AppOp.step, App.withdraw, hf]
          rw [hstep]; exact h
      | some a =>
          have hstep : (AppOp.step s (.withdraw i amt)).1 =
              { s with bank := (executeCommand s.bank
                  (.withdraw i amt)).1 } := by
            simp [AppOp.step, App.withdraw, hf]
          rw [hstep]
          exact appIdInvariant_of_eq s _
            (by simp [executeCommand, Command.execute_map_id]) rfl h
  | transfer f t amt =>
      cases hf : App.findAccountById s f with
      | none =>
          have hstep : (AppOp.step s (.transfer f t amt)).1 = s := by
            simp [AppOp.step, App.transfer, hf]
          rw [hstep]; exact h
      | some fa =>
          cases ht : App.findAccountById s t with
          | none =>
              have hstep : (AppOp.step s (.transfer f t amt)).1 = s := by
                simp [AppOp.step, App.transfer, hf, ht]
              rw [hstep]; exact h
          | some ta =>
              by_cases hsame : fa.id = ta.id
              · have hstep : (AppOp.step s (.transfer f t amt)).1 = s := by
                  simp [AppOp.step, App.transfer, hf, ht, hsame]
                rw [hstep]; exact h
              · have hstep : (AppOp.step s (.transfer f t amt)).1 =
                    { s with bank := (executeCommand s.bank
                        (.transfer f t amt)).1 } := by
                  simp [AppOp.step, App.transfer, hf, ht, hsame]
                rw [hstep]
                exact appIdInvariant_of_eq s _
                  (by simp [executeCommand, Command.execute_map_id]) rfl h
  | undoLast =>
      have hstep : (AppOp.step s .undoLast).1 =
          { s with bank := (undoLast s.bank).1 } := rfl
      rw [hstep]
      refine appIdInvariant_of_eq s _ ?_ rfl h
      show ((undoLast s.bank).1.accounts).map Account.id =
        (s.bank.accounts).map Account.id
      rcases hb : s.bank with ⟨accts, hist⟩
      cases hist with
      | nil => simp [undoLast]
      | cons cmd rest => simp [undoLast, Command.undo_map_id]
  | applyStrategy i key =>
      cases hf : App.findAccountById s i with
      | none =>
          have hstep : (AppOp.step s (.applyStrategy i key)).1 = s := by
            simp [AppOp.step, App.applyStrategy, hf]
          rw [hstep]; exact h
      | some a =>
          refine appIdInvariant_of_eq s _ ?_ ?_ h
          · simp only [AppOp.step, App.applyStrategy, hf]
            split_ifs <;> simp [setStrategyAt_map_id]
          · simp [AppOp.step, App.applyStrategy, hf]

/-- C9: after any sequence of public App operations from load time, the
account ids in creation order are strictly increasing, and pairwise
distinct — an account created later always has a strictly larger id and
no id is ever reused. -/
theorem C9_account_ids_strictly_increasing (ops : List AppOp) :
    (((runApp ops).bank.accounts.map Account.id).Chain' (· < ·)) ∧
      ((runApp ops).bank.accounts.map Account.id).Nodup := by
  have main : ∀ (l : List AppOp) (s : AppState), AppIdInvariant s →
      AppIdInvariant (l.foldl (fun s op => (op.step s).1) s) := by
    intro l
    induction l with
    | nil => intro s hs; exact hs
    | cons op rest ih =>
        intro s hs
        exact ih _ (step_preserves_idInvariant s op hs)
  have hinv : AppIdInvariant (runApp ops) :=
    main ops initialAppState
      ⟨by simp [initialAppState], by simp [initialAppState]⟩
  refine ⟨hinv.1, ?_⟩
  exact (List.chain'_iff_pairwise.1 hinv.1).nodup
